import Mathlib

/-!
# Verification of `wasm-game-of-life` (`src/lib.rs`)

A shallow embedding of the Game-of-Life core from `src/lib.rs`:
the `Cell` enum, the `Universe` struct and its methods `get_index`,
`live_neighbor_count`, `tick`, `new` and `render`.

Modelling conventions:
* Rust `u32` values are modelled as `Nat`.  All arithmetic reachable
  through the program's API stays far below `2 ^ 32` (the constructor
  builds a 64×64 grid), and in debug builds a `u32` overflow aborts
  rather than wrapping, so the arithmetic is exact wherever it is
  defined.
* `Vec<Cell>` is modelled as `List Cell`.  The panicking index
  `self.cells[idx]` is modelled by `List.getD · · Cell.Dead` in the
  total functions; separate `Checked` variants return `Option` and
  fail exactly where the Rust code would panic (out-of-bounds index,
  modulo by zero, `u32` underflow of `height - 1` / `width - 1`),
  so that totality claims can be stated faithfully.
* `&mut self` methods become pure functions `Universe → Universe`.
-/

/-- The two-state cell enum (`#[repr(u8)] enum Cell { Dead = 0, Alive = 1 }`). -/
inductive Cell : Type
  | Dead : Cell
  | Alive : Cell
deriving DecidableEq, Repr

/-- The `u8` discriminant of a cell (`cell as u8`): `Dead = 0`, `Alive = 1`. -/
def Cell.toNat : Cell → Nat
  | Cell.Dead => 0
  | Cell.Alive => 1

/-- The `Universe` struct: `width: u32`, `height: u32`, `cells: Vec<Cell>`. -/
structure Universe : Type where
  width : Nat
  height : Nat
  cells : List Cell
deriving DecidableEq, Repr

/-- The grid-size invariant `cells.length == width * height`. -/
def Universe.Invariant (u : Universe) : Prop :=
  u.cells.length = u.width * u.height

instance (u : Universe) : Decidable u.Invariant := by
  unfold Universe.Invariant; infer_instance

/-- `Universe::get_index`: `(row * self.width + column) as usize`. -/
def Universe.get_index (u : Universe) (row column : Nat) : Nat :=
  row * u.width + column

/-- `Universe::live_neighbor_count`: iterate `delta_row` over
`[self.height - 1, 0, 1]` and `delta_col` over `[self.width - 1, 0, 1]`,
skip the `(0, 0)` offset, wrap with `% self.height` / `% self.width`,
and accumulate `self.cells[idx] as u8`. -/
def Universe.live_neighbor_count (u : Universe) (row column : Nat) : Nat :=
  [u.height - 1, 0, 1].foldl
    (fun count delta_row =>
      [u.width - 1, 0, 1].foldl
        (fun count delta_col =>
          if delta_row = 0 ∧ delta_col = 0 then count
          else
            let neighbor_row := (row + delta_row) % u.height
            let neighbor_col := (column + delta_col) % u.width
            let idx := u.get_index neighbor_row neighbor_col
            count + (u.cells.getD idx Cell.Dead).toNat)
        count)
    0

/-- The `match (cell, live_neighbors)` in the body of `Universe::tick`,
arm by arm in source order. -/
def nextCell (cell : Cell) (live_neighbors : Nat) : Cell :=
  match cell with
  | Cell.Alive =>
    if live_neighbors < 2 then Cell.Dead
    else if live_neighbors = 2 ∨ live_neighbors = 3 then Cell.Alive
    else if live_neighbors > 3 then Cell.Dead
    else Cell.Alive
  | Cell.Dead =>
    if live_neighbors = 3 then Cell.Alive
    else Cell.Dead

/-- `Universe::tick`: clone `cells` into `next`, then for `row in 0..height`
and `col in 0..width` overwrite `next[idx]` with the new state computed from
the (unmodified) current `cells`; finally replace `self.cells` by `next`. -/
def Universe.tick (u : Universe) : Universe :=
  let next :=
    (List.range u.height).foldl
      (fun next row =>
        (List.range u.width).foldl
          (fun next col =>
            let idx := u.get_index row col
            let cell := u.cells.getD idx Cell.Dead
            let live_neighbors := u.live_neighbor_count row col
            next.set idx (nextCell cell live_neighbors))
          next)
      u.cells
  { u with cells := next }

/-- `Universe::new`: a 64×64 grid whose cell at flat index `i` is `Alive`
iff `i % 2 == 0 || i % 7 == 0`. -/
def Universe.new : Universe :=
  { width := 64
    height := 64
    cells :=
      (List.range (64 * 64)).map
        (fun i => if i % 2 = 0 ∨ i % 7 = 0 then Cell.Alive else Cell.Dead) }

/-- The glyph written by `Display for Universe`:
`'◻'` for a dead cell, `'◼'` for a live one. -/
def Cell.glyph (c : Cell) : Char :=
  if c = Cell.Dead then '◻' else '◼'

/-- `cells.as_slice().chunks(width)`: split a list into consecutive chunks
of `w` elements (the source calls it only with `w ≥ 1`; the `w = 0` case,
which panics in Rust, is given an arbitrary total value here and is never
used by the theorems).  Recursion is on a fuel argument bounded by the
list length, which suffices when `w ≥ 1`. -/
def chunksAux (w : Nat) : Nat → List Cell → List (List Cell)
  | _, [] => []
  | 0, l => [l]
  | fuel + 1, l => l.take w :: chunksAux w fuel (l.drop w)

/-- `chunks w l`: the list of rows of `l`, each of length `w`. -/
def chunks (w : Nat) (l : List Cell) : List (List Cell) :=
  chunksAux w l.length l

/-- The lines written by `Display for Universe`, one per `width`-sized chunk
of `cells`, one glyph per cell. -/
def Universe.toLines (u : Universe) : List String :=
  (chunks u.width u.cells).map (fun line => String.mk (line.map Cell.glyph))

/-- `Universe::render` (via the `Display` impl): each chunk of `width`
cells is written glyph by glyph, followed by `"\n"` — also after the
last row. -/
def Universe.render (u : Universe) : String :=
  String.join ((chunks u.width u.cells).map
    (fun line => String.mk (line.map Cell.glyph) ++ "\n"))

/-! ## Checked (panic-aware) variants

These return `none` exactly where the Rust code would panic:
`height - 1` / `width - 1` underflow or `% 0` when a dimension is zero,
and any out-of-bounds `cells[idx]` access. -/

/-- `live_neighbor_count` with every partial operation checked. -/
def Universe.live_neighbor_countChecked (u : Universe) (row column : Nat) :
    Option Nat :=
  if u.height = 0 ∨ u.width = 0 then none
  else
    [u.height - 1, 0, 1].foldlM
      (fun count delta_row =>
        [u.width - 1, 0, 1].foldlM
          (fun count delta_col =>
            if delta_row = 0 ∧ delta_col = 0 then some count
            else
              (u.cells[u.get_index ((row + delta_row) % u.height)
                  ((column + delta_col) % u.width)]?).map
                (fun c => count + c.toNat))
          count)
      0

/-- `tick` with every partial operation checked: each read of
`self.cells[idx]`, each neighbor count, and each write `next[idx] = …`
must be in bounds. -/
def Universe.tickChecked (u : Universe) : Option Universe :=
  ((List.range u.height).foldlM
    (fun next row =>
      (List.range u.width).foldlM
        (fun (next : List Cell) col => do
          let idx := u.get_index row col
          let cell ← u.cells[idx]?
          let live_neighbors ← u.live_neighbor_countChecked row col
          if idx < next.length then
            pure (next.set idx (nextCell cell live_neighbors))
          else
            none)
        next)
    u.cells).map
    (fun next => { u with cells := next })

/-! ## Definitions used by the statements of the claims -/

/-- The flat indices written by the nested loops of `tick`, in loop order. -/
def flatIndices (w h : Nat) : List Nat :=
  (List.range h).flatMap (fun row => (List.range w).map (fun col => row * w + col))

/-- The value `tick` writes at flat index `i` (it depends only on the
pre-`tick` universe and `i`). -/
def Universe.tickWrite (u : Universe) (i : Nat) : Cell :=
  nextCell (u.cells.getD i Cell.Dead)
    (u.live_neighbor_count (i / u.width) (i % u.width))

/-- The spec's description of neighbor counting, stated as data: the nine
offset pairs built from the row offsets `[height-1, 0, 1]` and the column
offsets `[width-1, 0, 1]` in iteration order, with every `(0, 0)` pair
removed. -/
def neighborOffsetPairs (u : Universe) : List (Nat × Nat) :=
  [(u.height - 1, u.width - 1), (u.height - 1, 0), (u.height - 1, 1),
   (0, u.width - 1), (0, 0), (0, 1),
   (1, u.width - 1), (1, 0), (1, 1)].filter
    (fun p => ¬(p.1 = 0 ∧ p.2 = 0))

/-- The count demanded by the spec's wording for `live_neighbor_count`:
the number of `Alive` cells among the toroidal neighbor positions
`((row + delta_row) mod height, (column + delta_col) mod width)` over the
non-`(0, 0)` offset pairs.  Kept separate from the implementation (a fold
with a running counter) so the two can be compared. -/
def specNeighborCount (u : Universe) (row column : Nat) : Nat :=
  (neighborOffsetPairs u).countP
    (fun p =>
      u.cells.getD
        (u.get_index ((row + p.1) % u.height) ((column + p.2) % u.width))
        Cell.Dead = Cell.Alive)

/-- A `w × h` universe whose `Alive` cells are exactly the coordinates in
`alive` (given as `(row, column)` pairs, row-major flat layout). -/
def gridOfAlive (w h : Nat) (alive : List (Nat × Nat)) : Universe :=
  { width := w
    height := h
    cells :=
      (List.range (w * h)).map
        (fun i => if (i / w, i % w) ∈ alive then Cell.Alive else Cell.Dead) }

/-- The 5×5 vertical blinker: column 2, rows 1–3 alive, all else dead. -/
def blinkerV : Universe := gridOfAlive 5 5 [(1, 2), (2, 2), (3, 2)]

/-- The 5×5 horizontal blinker: row 2, columns 1–3 alive, all else dead. -/
def blinkerH : Universe := gridOfAlive 5 5 [(2, 1), (2, 2), (2, 3)]

/-- A 2×2 universe whose only live cell is `(0, 0)` (used to witness the
toroidal diagonal wraparound). -/
def cornerGrid : Universe := gridOfAlive 2 2 [(0, 0)]

/-- The degenerate 1×1 universe holding a single live cell. -/
def oneByOneAlive : Universe := Universe.mk 1 1 [Cell.Alive]

/-! ## Basic lemmas -/

theorem Cell.toNat_eq_ite (c : Cell) : c.toNat = if c = Cell.Alive then 1 else 0 := by
  cases c <;> rfl

theorem Cell.toNat_le_one (c : Cell) : c.toNat ≤ 1 := by
  cases c <;> simp [Cell.toNat]

/-- A fold preserves any invariant its step preserves. -/
theorem foldl_invariant {α β : Type} (I : β → Prop) (g : β → α → β) :
    ∀ (l : List α) (b : β), I b → (∀ b a, a ∈ l → I b → I (g b a)) →
      I (l.foldl g b) := by
  intro l
  induction l with
  | nil => intro b hb _; exact hb
  | cons a l ih =>
    intro b hb hstep
    exact ih (g b a) (hstep b a (List.mem_cons_self a l) hb)
      (fun b' a' ha' hb' => hstep b' a' (List.mem_cons_of_mem a ha') hb')

/-- An `Option`-valued fold whose step always succeeds (on states reachable
from an invariant) computes `some` of the corresponding pure fold. -/
theorem foldlM_eq_some {α β : Type} (I : β → Prop) (g : β → α → β)
    (g? : β → α → Option β) :
    ∀ (l : List α) (b : β), I b →
      (∀ b a, a ∈ l → I b → g? b a = some (g b a) ∧ I (g b a)) →
      l.foldlM g? b = some (l.foldl g b) := by
  intro l
  induction l with
  | nil => intro b _ _; rfl
  | cons a l ih =>
    intro b hb hstep
    have h1 := hstep b a (List.mem_cons_self a l) hb
    rw [List.foldlM_cons, h1.1]
    show (l.foldlM g? (g b a)) = _
    exact ih (g b a) h1.2
      (fun b' a' ha' hb' => hstep b' a' (List.mem_cons_of_mem a ha') hb')

/-! ## Folds of `List.set` writes at pure values

`tick` builds its new cell list by a nested loop of `next[idx] = f(idx)`
writes where the written value depends only on the index (all reads are
from the old list).  These lemmas characterise such folds. -/

theorem setfold_length (f : Nat → Cell) :
    ∀ (xs : List Nat) (l : List Cell),
      (xs.foldl (fun l i => l.set i (f i)) l).length = l.length := by
  intro xs
  induction xs with
  | nil => intro l; rfl
  | cons x xs ih => intro l; rw [List.foldl_cons, ih, List.length_set]

theorem setfold_getD_not_mem (f : Nat → Cell) (d : Cell) (j : Nat) :
    ∀ (xs : List Nat) (l : List Cell), j ∉ xs →
      (xs.foldl (fun l i => l.set i (f i)) l).getD j d = l.getD j d := by
  intro xs
  induction xs with
  | nil => intro l _; rfl
  | cons x xs ih =>
    intro l hj
    rw [List.foldl_cons, ih _ (fun h => hj (List.mem_cons_of_mem x h))]
    have hx : x ≠ j := fun h => hj (h ▸ List.mem_cons_self x xs)
    simp [List.getD_eq_getElem?_getD, List.getElem?_set_ne hx]

theorem setfold_getD_mem (f : Nat → Cell) (d : Cell) (j : Nat) :
    ∀ (xs : List Nat) (l : List Cell), j ∈ xs → j < l.length →
      (xs.foldl (fun l i => l.set i (f i)) l).getD j d = f j := by
  intro xs
  induction xs with
  | nil => intro l hj _; cases hj
  | cons x xs ih =>
    intro l hj hlen
    rw [List.foldl_cons]
    by_cases hmem : j ∈ xs
    · exact ih _ hmem (by rw [List.length_set]; exact hlen)
    · have hx : j = x := by
        rcases List.mem_cons.mp hj with h | h
        · exact h
        · exact absurd h hmem
      subst hx
      rw [setfold_getD_not_mem f d j xs _ hmem]
      simp [List.getD_eq_getElem?_getD, List.getElem?_set_self hlen]

/-! ## Index arithmetic -/

theorem index_lt {row col w h : Nat} (hr : row < h) (hc : col < w) :
    row * w + col < w * h := by
  calc row * w + col < row * w + w := by omega
    _ = (row + 1) * w := by ring
    _ ≤ h * w := Nat.mul_le_mul_right w hr
    _ = w * h := Nat.mul_comm h w

theorem index_div (w row col : Nat) (hc : col < w) : (row * w + col) / w = row := by
  rw [Nat.mul_comm, Nat.mul_add_div (by omega : 0 < w)]
  simp [Nat.div_eq_of_lt hc]

theorem index_mod (w row col : Nat) (hc : col < w) : (row * w + col) % w = col := by
  rw [Nat.mul_comm, Nat.mul_add_mod]
  exact Nat.mod_eq_of_lt hc

/-! ## `tick` as a fold of index-determined writes -/

theorem mem_flatIndices {w h j : Nat} :
    j ∈ flatIndices w h ↔ ∃ row, row < h ∧ ∃ col, col < w ∧ j = row * w + col := by
  simp only [flatIndices, List.mem_flatMap, List.mem_map, List.mem_range]
  constructor
  · rintro ⟨row, hrow, col, hcol, rfl⟩
    exact ⟨row, hrow, col, hcol, rfl⟩
  · rintro ⟨row, hrow, col, hcol, rfl⟩
    exact ⟨row, hrow, col, hcol, rfl⟩

/-- A fold congruence: folds of pointwise-equal-on-members steps agree. -/
theorem foldl_congr_mem {α β : Type} (f g : β → α → β) :
    ∀ (l : List α) (b : β), (∀ b a, a ∈ l → f b a = g b a) →
      l.foldl f b = l.foldl g b := by
  intro l
  induction l with
  | nil => intro b _; rfl
  | cons a l ih =>
    intro b h
    rw [List.foldl_cons, List.foldl_cons, h b a (List.mem_cons_self a l)]
    exact ih _ (fun b' a' ha' => h b' a' (List.mem_cons_of_mem a ha'))

/-- The nested loops of `tick` are the fold of the writes
`next[i] = tickWrite u i` over `flatIndices`. -/
theorem tick_cells_eq_setfold (u : Universe) :
    (u.tick).cells
      = (flatIndices u.width u.height).foldl
          (fun l i => l.set i (u.tickWrite i)) u.cells := by
  show (List.range u.height).foldl _ u.cells = _
  rw [flatIndices, List.flatMap_def, List.foldl_flatten, List.foldl_map]
  apply foldl_congr_mem
  intro next row _
  rw [List.foldl_map]
  apply foldl_congr_mem
  intro next' col hcol
  have hc : col < u.width := List.mem_range.mp hcol
  show next'.set (u.get_index row col) _ = next'.set (row * u.width + col) _
  simp only [Universe.get_index, Universe.tickWrite, index_div u.width row col hc, index_mod u.width row col hc]

theorem tick_width (u : Universe) : (u.tick).width = u.width := rfl

theorem tick_height (u : Universe) : (u.tick).height = u.height := rfl

theorem tick_cells_length (u : Universe) :
    (u.tick).cells.length = u.cells.length := by
  rw [tick_cells_eq_setfold]
  exact setfold_length _ _ _

/-- `tick` preserves the grid-size invariant. -/
theorem tick_invariant (u : Universe) (h : u.Invariant) : (u.tick).Invariant := by
  show (u.tick).cells.length = (u.tick).width * (u.tick).height
  rw [tick_cells_length, tick_width, tick_height]
  exact h

/-- Pointwise description of `tick`: under the grid-size invariant, the
cell the new generation holds at an in-range coordinate is `nextCell` of
the old cell and its old live-neighbor count. -/
theorem tick_getD (u : Universe) (hInv : u.Invariant) {row col : Nat}
    (hr : row < u.height) (hc : col < u.width) :
    (u.tick).cells.getD (u.get_index row col) Cell.Dead
      = nextCell (u.cells.getD (u.get_index row col) Cell.Dead)
          (u.live_neighbor_count row col) := by
  rw [tick_cells_eq_setfold]
  have hmem : u.get_index row col ∈ flatIndices u.width u.height :=
    mem_flatIndices.mpr ⟨row, hr, col, hc, rfl⟩
  have hlt : u.get_index row col < u.cells.length := by
    rw [hInv]
    exact index_lt hr hc
  rw [setfold_getD_mem _ _ _ _ _ hmem hlt]
  simp only [Universe.tickWrite, Universe.get_index, index_div u.width row col hc, index_mod u.width row col hc]

theorem live_neighbor_count_eq_spec (u : Universe) (row column : Nat) :
    u.live_neighbor_count row column = specNeighborCount u row column := by
  by_cases h1 : u.height - 1 = 0 <;> by_cases h2 : u.width - 1 = 0 <;>
    simp [Universe.live_neighbor_count, specNeighborCount, neighborOffsetPairs,
      h1, h2, Cell.toNat_eq_ite, List.countP_cons] <;>
    split_ifs <;> omega

theorem live_neighbor_count_le_eight (u : Universe) (row column : Nat) :
    u.live_neighbor_count row column ≤ 8 := by
  rw [live_neighbor_count_eq_spec]
  calc specNeighborCount u row column ≤ (neighborOffsetPairs u).length := by
        rw [specNeighborCount]
        exact List.countP_le_length _
    _ ≤ 8 := by
        by_cases h1 : u.height - 1 = 0 <;> by_cases h2 : u.width - 1 = 0 <;>
          simp [neighborOffsetPairs, h1, h2]

theorem live_neighbor_count_diag (u : Universe)
    (hh : 1 ≤ u.height) (hw : 1 ≤ u.width)
    (h0 : u.cells.getD (u.get_index 0 0) Cell.Dead = Cell.Alive) :
    1 ≤ u.live_neighbor_count (u.height - 1) (u.width - 1) := by
  rw [live_neighbor_count_eq_spec]
  have hmem : ((1 : Nat), (1 : Nat)) ∈ neighborOffsetPairs u := by
    simp [neighborOffsetPairs]
  have hwrap_r : (u.height - 1 + 1) % u.height = 0 := by
    rw [Nat.sub_add_cancel hh, Nat.mod_self]
  have hwrap_c : (u.width - 1 + 1) % u.width = 0 := by
    rw [Nat.sub_add_cancel hw, Nat.mod_self]
  have h0' := h0
  simp only [List.getD_eq_getElem?_getD] at h0'
  have hpos : 0 < specNeighborCount u (u.height - 1) (u.width - 1) := by
    rw [specNeighborCount, List.countP_pos_iff]
    refine ⟨(1, 1), hmem, ?_⟩
    simp [hwrap_r, hwrap_c, h0']
  omega

theorem live_neighbor_count_one_by_one (c : Cell) :
    (Universe.mk 1 1 [c]).live_neighbor_count 0 0 = 5 * c.toNat := by
  cases c <;> decide

theorem live_neighbor_countChecked_eq (u : Universe) (hInv : u.Invariant)
    (hh : 1 ≤ u.height) (hw : 1 ≤ u.width) (row column : Nat) :
    u.live_neighbor_countChecked row column
      = some (u.live_neighbor_count row column) := by
  have key : ∀ dr dc : Nat,
      u.cells[u.get_index ((row + dr) % u.height) ((column + dc) % u.width)]?
        = some (u.cells.getD
            (u.get_index ((row + dr) % u.height) ((column + dc) % u.width))
            Cell.Dead) := by
    intro dr dc
    have hlt : u.get_index ((row + dr) % u.height) ((column + dc) % u.width)
        < u.cells.length := by
      rw [hInv]
      exact index_lt (Nat.mod_lt _ (by omega)) (Nat.mod_lt _ (by omega))
    simp [List.getElem?_eq_getElem hlt, List.getD_eq_getElem?_getD]
  rw [Universe.live_neighbor_countChecked, if_neg (by omega),
    Universe.live_neighbor_count]
  apply foldlM_eq_some (fun _ => True)
  · trivial
  · intro count dr _ _
    refine ⟨?_, trivial⟩
    apply foldlM_eq_some (fun _ => True)
    · trivial
    · intro count' dc _ _
      refine ⟨?_, trivial⟩
      by_cases hcond : dr = 0 ∧ dc = 0
      · simp [hcond]
      · simp only [if_neg hcond]
        rw [key dr dc]
        rfl

theorem tickChecked_eq (u : Universe) (hInv : u.Invariant) :
    u.tickChecked = some u.tick := by
  rw [Universe.tickChecked, Universe.tick]
  have houter :
      ((List.range u.height).foldlM
        (fun next row =>
          (List.range u.width).foldlM
            (fun (next : List Cell) col => do
              let idx := u.get_index row col
              let cell ← u.cells[idx]?
              let live_neighbors ← u.live_neighbor_countChecked row col
              if idx < next.length then
                pure (next.set idx (nextCell cell live_neighbors))
              else
                none)
            next)
        u.cells)
      = some ((List.range u.height).foldl
          (fun next row =>
            (List.range u.width).foldl
              (fun next col =>
                let idx := u.get_index row col
                let cell := u.cells.getD idx Cell.Dead
                let live_neighbors := u.live_neighbor_count row col
                next.set idx (nextCell cell live_neighbors))
              next)
          u.cells) := by
    apply foldlM_eq_some (fun next => next.length = u.cells.length)
    · rfl
    · intro next row hrow hI
      have hr : row < u.height := List.mem_range.mp hrow
      constructor
      · apply foldlM_eq_some (fun next => next.length = u.cells.length)
        · exact hI
        · intro next' col hcol hI'
          have hc : col < u.width := List.mem_range.mp hcol
          have hidx : u.get_index row col < u.cells.length := by
            rw [hInv]; exact index_lt hr hc
          have hidx' : u.get_index row col < next'.length := by
            rw [hI']; exact hidx
          constructor
          · dsimp only
            rw [List.getElem?_eq_getElem hidx,
              live_neighbor_countChecked_eq u hInv (by omega) (by omega) row col]
            simp only [bind_pure_comp, bind_map_left, Option.bind_eq_bind,
              Option.some_bind, if_pos hidx']
            simp [List.getD_eq_getElem?_getD, List.getElem?_eq_getElem hidx]
          · simp only [List.length_set]; exact hI'
      · refine foldl_invariant (fun (next : List Cell) => next.length = u.cells.length) _ _ _ hI ?_
        intro next' col _ hI'
        simpa using hI'
  rw [houter]
  rfl

theorem chunksAux_spec (w : Nat) (hw : 1 ≤ w) :
    ∀ (h fuel : Nat) (l : List Cell), l.length = w * h → h ≤ fuel →
      (chunksAux w fuel l).length = h ∧
      (∀ c ∈ chunksAux w fuel l, c.length = w) ∧
      (chunksAux w fuel l).flatten = l := by
  intro h
  induction h with
  | zero =>
    intro fuel l hl _
    have : l = [] := List.eq_nil_of_length_eq_zero (by omega)
    subst this
    cases fuel <;> simp [chunksAux]
  | succ h ih =>
    intro fuel l hl hfuel
    have hlen : w ≤ l.length := by
      rw [hl]; calc w = w * 1 := (Nat.mul_one w).symm
        _ ≤ w * (h + 1) := Nat.mul_le_mul_left w (by omega)
    obtain ⟨a, l', rfl⟩ : ∃ a l', l = a :: l' := by
      cases l with
      | nil => simp at hl; omega
      | cons a l' => exact ⟨a, l', rfl⟩
    obtain ⟨f, rfl⟩ : ∃ f, fuel = f + 1 := by
      cases fuel with
      | zero => omega
      | succ f => exact ⟨f, rfl⟩
    have hdrop : ((a :: l').drop w).length = w * h := by
      rw [List.length_drop, hl]
      calc w * (h + 1) - w = w * h + w - w := by ring_nf
        _ = w * h := by omega
    obtain ⟨ih1, ih2, ih3⟩ := ih f ((a :: l').drop w) hdrop (by omega)
    refine ⟨?_, ?_, ?_⟩
    · simp [chunksAux, ih1]
    · intro c hc
      rw [show chunksAux w (f + 1) (a :: l')
          = (a :: l').take w :: chunksAux w f ((a :: l').drop w) from rfl] at hc
      rcases List.mem_cons.mp hc with h' | h'
      · subst h'
        rw [List.length_take]
        omega
      · exact ih2 c h'
    · rw [show chunksAux w (f + 1) (a :: l')
          = (a :: l').take w :: chunksAux w f ((a :: l').drop w) from rfl]
      rw [List.flatten_cons, ih3, List.take_append_drop]

theorem chunks_spec (w h : Nat) (hw : 1 ≤ w) (l : List Cell)
    (hl : l.length = w * h) :
    (chunks w l).length = h ∧ (∀ c ∈ chunks w l, c.length = w) ∧
      (chunks w l).flatten = l := by
  refine chunksAux_spec w hw h l.length l hl ?_
  rw [hl]
  exact Nat.le_mul_of_pos_left h hw

theorem toLines_length (u : Universe) (hInv : u.Invariant) (hw : 1 ≤ u.width) :
    u.toLines.length = u.height := by
  rw [Universe.toLines, List.length_map]
  exact (chunks_spec u.width u.height hw u.cells hInv).1

theorem toLines_line_width (u : Universe) (hInv : u.Invariant)
    (hw : 1 ≤ u.width) : ∀ s ∈ u.toLines, s.length = u.width := by
  intro s hs
  rw [Universe.toLines] at hs
  obtain ⟨c, hc, rfl⟩ := List.mem_map.mp hs
  rw [String.length_mk, List.length_map]
  exact (chunks_spec u.width u.height hw u.cells hInv).2.1 c hc

theorem toLines_rowmajor (u : Universe) (hInv : u.Invariant) (hw : 1 ≤ u.width) :
    (u.toLines.map String.toList).flatten = u.cells.map Cell.glyph := by
  rw [Universe.toLines, List.map_map]
  have h1 : (String.toList ∘ fun line : List Cell => String.mk (line.map Cell.glyph))
      = List.map Cell.glyph := rfl
  rw [h1, ← List.map_flatten,
    (chunks_spec u.width u.height hw u.cells hInv).2.2]

theorem render_eq_join_lines (u : Universe) :
    u.render = String.join (u.toLines.map (fun s => s ++ "\n")) := by
  rw [Universe.render, Universe.toLines, List.map_map]
  rfl

theorem toLines_no_newline (u : Universe) :
    ∀ s ∈ u.toLines, ∀ ch ∈ s.toList, ch ≠ '\n' := by
  intro s hs ch hch
  rw [Universe.toLines] at hs
  obtain ⟨c, _, rfl⟩ := List.mem_map.mp hs
  have : ch ∈ c.map Cell.glyph := hch
  obtain ⟨cell, _, rfl⟩ := List.mem_map.mp this
  cases cell <;> decide

theorem lnc_one_one (u : Universe) (hw : u.width = 1) (hh : u.height = 1)
    (hInv : u.Invariant) :
    u.live_neighbor_count 0 0 = 5 * (u.cells.getD 0 Cell.Dead).toNat := by
  obtain ⟨w, h, cells⟩ := u
  simp only at hw hh
  subst hw; subst hh
  have hlen : cells.length = 1 := hInv
  obtain ⟨c, rfl⟩ : ∃ c, cells = [c] := by
    cases cells with
    | nil => simp at hlen
    | cons a l =>
      cases l with
      | nil => exact ⟨a, rfl⟩
      | cons b l' => simp at hlen
  cases c <;> decide

theorem new_width : Universe.new.width = 64 := rfl

theorem new_height : Universe.new.height = 64 := rfl

theorem new_cells_length : Universe.new.cells.length = 64 * 64 := by
  simp [Universe.new]

theorem new_cells_getD (i : Nat) (hi : i < 64 * 64) :
    Universe.new.cells.getD i Cell.Dead
      = if i % 2 = 0 ∨ i % 7 = 0 then Cell.Alive else Cell.Dead := by
  simp [Universe.new, List.getD_eq_getElem?_getD, List.getElem?_map,
    List.getElem?_range, hi]

theorem get_index_inj (u : Universe) {r1 c1 r2 c2 : Nat}
    (hc1 : c1 < u.width) (hc2 : c2 < u.width)
    (heq : u.get_index r1 c1 = u.get_index r2 c2) : r1 = r2 ∧ c1 = c2 := by
  have e1 := index_div u.width r1 c1 hc1
  have e2 := index_div u.width r2 c2 hc2
  have m1 := index_mod u.width r1 c1 hc1
  have m2 := index_mod u.width r2 c2 hc2
  simp only [Universe.get_index] at heq
  constructor
  · rw [← e1, ← e2, heq]
  · rw [← m1, ← m2, heq]

theorem get_index_surj (u : Universe) (i : Nat) (hi : i < u.width * u.height) :
    ∃ r, r < u.height ∧ ∃ c, c < u.width ∧ u.get_index r c = i := by
  have hw : 0 < u.width := by
    rcases Nat.eq_zero_or_pos u.width with h | h
    · rw [h] at hi; omega
    · exact h
  refine ⟨i / u.width, ?_, i % u.width, Nat.mod_lt _ hw, ?_⟩
  · rw [Nat.div_lt_iff_lt_mul hw, Nat.mul_comm u.height u.width]
    exact hi
  · rw [Universe.get_index, Nat.mul_comm]
    exact Nat.div_add_mod i u.width


/-! ## Claim theorems -/

/-- **C1**: for every `Universe` satisfying the grid-size invariant, one
`tick` maps each in-range cell to `nextCell` of its pre-tick state and its
pre-tick live-neighbor count — both read from the old grid only (the new
list is a function of the pre-tick universe alone) — and `nextCell`
implements the Game-of-Life rule: a live cell with fewer than 2 live
neighbors dies, with exactly 2 or 3 survives, with more than 3 dies; a
dead cell with exactly 3 live neighbors is born; every other cell keeps
its state. -/
theorem claim_C1_tick_rule :
    (∀ u : Universe, u.Invariant → ∀ row col : Nat,
      row < u.height → col < u.width →
        (u.tick).cells.getD (u.get_index row col) Cell.Dead
          = nextCell (u.cells.getD (u.get_index row col) Cell.Dead)
              (u.live_neighbor_count row col))
    ∧ (∀ n : Nat, n < 2 → nextCell Cell.Alive n = Cell.Dead)
    ∧ (∀ n : Nat, n = 2 ∨ n = 3 → nextCell Cell.Alive n = Cell.Alive)
    ∧ (∀ n : Nat, 3 < n → nextCell Cell.Alive n = Cell.Dead)
    ∧ nextCell Cell.Dead 3 = Cell.Alive
    ∧ (∀ n : Nat, n ≠ 3 → nextCell Cell.Dead n = Cell.Dead) := by
  refine ⟨fun u hInv row col hr hc => tick_getD u hInv hr hc, ?_, ?_, ?_, rfl, ?_⟩
  · intro n hn
    simp [nextCell, hn]
  · intro n hn
    rcases hn with rfl | rfl <;> decide
  · intro n hn
    simp only [nextCell]
    rw [if_neg (by omega), if_neg (by omega), if_pos (by omega)]
  · intro n hn
    simp [nextCell, hn]

/-- Witness for **C1** at the 1×1 all-alive grid (the live cell has 5
live "neighbors" by wraparound, so it dies) and at the underpopulation
rule with 1 neighbor. -/
theorem claim_C1_tick_rule_witness :
    oneByOneAlive.Invariant
    ∧ (oneByOneAlive.tick).cells.getD (oneByOneAlive.get_index 0 0) Cell.Dead
        = nextCell (oneByOneAlive.cells.getD (oneByOneAlive.get_index 0 0) Cell.Dead)
            (oneByOneAlive.live_neighbor_count 0 0)
    ∧ nextCell Cell.Alive 1 = Cell.Dead :=
  ⟨by decide,
   claim_C1_tick_rule.1 oneByOneAlive (by decide) 0 0 (by decide) (by decide),
   claim_C1_tick_rule.2.1 1 (by decide)⟩

/-- **C2**: for every `Universe` with `width ≥ 1`, `height ≥ 1` and the
grid-size invariant, and every in-range coordinate,
`live_neighbor_count` equals the count described by the spec (the number
of `Alive` cells over the non-`(0,0)` offset pairs from the row offsets
`[height-1, 0, 1]` and column offsets `[width-1, 0, 1]`, looked up at the
`mod`-wrapped coordinate), the count is at most 8, and when the cell at
`(0, 0)` is alive the count at `(height-1, width-1)` includes it via
diagonal wraparound. -/
theorem claim_C2_neighbor_count :
    ∀ u : Universe, u.Invariant → 1 ≤ u.width → 1 ≤ u.height →
      ∀ row col : Nat, row < u.height → col < u.width →
        (u.live_neighbor_count row col = specNeighborCount u row col
        ∧ u.live_neighbor_count row col ≤ 8
        ∧ (u.cells.getD (u.get_index 0 0) Cell.Dead = Cell.Alive →
            1 ≤ u.live_neighbor_count (u.height - 1) (u.width - 1))) :=
  fun u _ hw hh row col _ _ =>
    ⟨live_neighbor_count_eq_spec u row col,
     live_neighbor_count_le_eight u row col,
     fun h0 => live_neighbor_count_diag u hh hw h0⟩

/-- Witness for **C2** at the 2×2 grid whose only live cell is `(0, 0)`,
evaluated at coordinate `(1, 1) = (height-1, width-1)`: the diagonal
wraparound sees the live corner. -/
theorem claim_C2_neighbor_count_witness :
    cornerGrid.Invariant ∧ 1 ≤ cornerGrid.width ∧ 1 ≤ cornerGrid.height
    ∧ (1 : Nat) < cornerGrid.height ∧ (1 : Nat) < cornerGrid.width
    ∧ cornerGrid.cells.getD (cornerGrid.get_index 0 0) Cell.Dead = Cell.Alive
    ∧ (cornerGrid.live_neighbor_count 1 1 = specNeighborCount cornerGrid 1 1
      ∧ cornerGrid.live_neighbor_count 1 1 ≤ 8
      ∧ (cornerGrid.cells.getD (cornerGrid.get_index 0 0) Cell.Dead = Cell.Alive →
          1 ≤ cornerGrid.live_neighbor_count
                (cornerGrid.height - 1) (cornerGrid.width - 1))) :=
  ⟨by decide, by decide, by decide, by decide, by decide, by decide,
   claim_C2_neighbor_count cornerGrid (by decide) (by decide) (by decide)
     1 1 (by decide) (by decide)⟩

/-- **C3**: the grid-size invariant `cells.length = width * height` holds
after `new`, is preserved by every `tick`, and hence holds after any
number of `tick` calls. -/
theorem claim_C3_grid_invariant :
    Universe.new.Invariant
    ∧ (∀ u : Universe, u.Invariant → (u.tick).Invariant)
    ∧ (∀ (u : Universe) (n : Nat), u.Invariant →
        (Universe.tick^[n] u).Invariant) := by
  refine ⟨?_, tick_invariant, ?_⟩
  · show Universe.new.cells.length = _
    rw [new_cells_length]
    rfl
  · intro u n
    induction n generalizing u with
    | zero => intro hu; simpa using hu
    | succ n ih =>
      intro hu
      rw [Function.iterate_succ_apply]
      exact ih (u.tick) (tick_invariant u hu)

/-- Witness for **C3** at the constructed universe, after one and after
two ticks. -/
theorem claim_C3_grid_invariant_witness :
    Universe.new.Invariant ∧ (Universe.new.tick).Invariant
    ∧ (Universe.tick^[2] Universe.new).Invariant :=
  ⟨claim_C3_grid_invariant.1,
   claim_C3_grid_invariant.2.1 Universe.new claim_C3_grid_invariant.1,
   claim_C3_grid_invariant.2.2 Universe.new 2 claim_C3_grid_invariant.1⟩

/-- **C4**: `new` deterministically returns the 64×64 universe (a fixed
constant of the embedding) with `64 * 64` cells, the cell at flat index
`i` being `Alive` exactly when `i` is divisible by 2 or by 7. -/
theorem claim_C4_new :
    Universe.new.width = 64 ∧ Universe.new.height = 64
    ∧ Universe.new.cells.length = 64 * 64
    ∧ ∀ i : Nat, i < 64 * 64 →
        Universe.new.cells.getD i Cell.Dead
          = if i % 2 = 0 ∨ i % 7 = 0 then Cell.Alive else Cell.Dead :=
  ⟨rfl, rfl, new_cells_length, new_cells_getD⟩

/-- Witness for **C4** at index 11 (odd, not divisible by 7: dead) via the
theorem itself. -/
theorem claim_C4_new_witness :
    (11 : Nat) < 64 * 64
    ∧ Universe.new.cells.getD 11 Cell.Dead
        = if 11 % 2 = 0 ∨ 11 % 7 = 0 then Cell.Alive else Cell.Dead :=
  ⟨by decide, claim_C4_new.2.2.2 11 (by decide)⟩

/-- **C5**: `get_index` returns `row * width + column`; restricted to
in-range pairs it is a bijection onto `[0, width * height)` (it lands in
range, is injective, and is surjective); and on any 5×5 universe
`get_index 1 2 = 7`. -/
theorem claim_C5_get_index :
    (∀ (u : Universe) (row col : Nat),
      u.get_index row col = row * u.width + col)
    ∧ (∀ (u : Universe) (row col : Nat), row < u.height → col < u.width →
        u.get_index row col < u.width * u.height)
    ∧ (∀ (u : Universe) (r1 c1 r2 c2 : Nat),
        r1 < u.height → c1 < u.width → r2 < u.height → c2 < u.width →
        u.get_index r1 c1 = u.get_index r2 c2 → r1 = r2 ∧ c1 = c2)
    ∧ (∀ (u : Universe) (i : Nat), i < u.width * u.height →
        ∃ r, r < u.height ∧ ∃ c, c < u.width ∧ u.get_index r c = i)
    ∧ (∀ u : Universe, u.width = 5 → u.height = 5 → u.get_index 1 2 = 7) := by
  refine ⟨fun u row col => rfl, fun u row col hr hc => index_lt hr hc,
    fun u r1 c1 r2 c2 _ hc1 _ hc2 heq => get_index_inj u hc1 hc2 heq,
    get_index_surj, ?_⟩
  intro u h5 _
  rw [Universe.get_index, h5]

/-- Witness for **C5** on the 5×5 blinker grid at `(1, 2)`. -/
theorem claim_C5_get_index_witness :
    ((1 : Nat) < blinkerV.height ∧ (2 : Nat) < blinkerV.width
      ∧ blinkerV.get_index 1 2 < blinkerV.width * blinkerV.height)
    ∧ (blinkerV.width = 5 ∧ blinkerV.height = 5 ∧ blinkerV.get_index 1 2 = 7) :=
  ⟨⟨by decide, by decide,
    claim_C5_get_index.2.1 blinkerV 1 2 (by decide) (by decide)⟩,
   rfl, rfl, claim_C5_get_index.2.2.2.2 blinkerV rfl rfl⟩

/-- **C6**: the 5×5 vertical blinker becomes the horizontal blinker after
one `tick`, and two `tick`s restore it (period-2 oscillation; the alive
sets of `blinkerV` and `blinkerH` are exactly the coordinate lists in
their definitions). -/
theorem claim_C6_blinker :
    blinkerV.tick = blinkerH ∧ blinkerV.tick.tick = blinkerV := by
  constructor <;> decide

/-- **C7**: for every universe obeying the grid-size invariant and the
data model's dimension bounds (`width ≥ 1`, `height ≥ 1`, spec §3),
`render` is the concatenation of exactly `height` lines each of exactly
`width` glyphs — one glyph per cell in row-major order, a distinct glyph
for alive and dead, no line containing the terminator — with a `"\n"`
after every row including the last.  `render` is a pure function of the
universe, so it reads the state without mutating it. -/
theorem claim_C7_render :
    ∀ u : Universe, u.Invariant → 1 ≤ u.width → 1 ≤ u.height →
      (u.toLines.length = u.height
      ∧ (∀ s ∈ u.toLines, s.length = u.width)
      ∧ u.render = String.join (u.toLines.map (fun s => s ++ "\n"))
      ∧ (u.toLines.map String.toList).flatten = u.cells.map Cell.glyph
      ∧ (∀ s ∈ u.toLines, ∀ ch ∈ s.toList, ch ≠ '\n')
      ∧ Cell.glyph Cell.Alive ≠ Cell.glyph Cell.Dead) :=
  fun u hInv hw _ =>
    ⟨toLines_length u hInv hw, toLines_line_width u hInv hw,
     render_eq_join_lines u, toLines_rowmajor u hInv hw,
     toLines_no_newline u, by decide⟩

/-- Witness for **C7** on the 5×5 blinker grid. -/
theorem claim_C7_render_witness :
    blinkerV.Invariant ∧ 1 ≤ blinkerV.width ∧ 1 ≤ blinkerV.height
    ∧ (blinkerV.toLines.length = blinkerV.height
      ∧ (∀ s ∈ blinkerV.toLines, s.length = blinkerV.width)
      ∧ blinkerV.render = String.join (blinkerV.toLines.map (fun s => s ++ "\n"))
      ∧ (blinkerV.toLines.map String.toList).flatten
          = blinkerV.cells.map Cell.glyph
      ∧ (∀ s ∈ blinkerV.toLines, ∀ ch ∈ s.toList, ch ≠ '\n')
      ∧ Cell.glyph Cell.Alive ≠ Cell.glyph Cell.Dead) :=
  ⟨by decide, by decide, by decide,
   claim_C7_render blinkerV (by decide) (by decide) (by decide)⟩

/-- **C8**: on every universe with `width ≥ 1`, `height ≥ 1` and the
grid-size invariant, `live_neighbor_count` (at any in-range coordinate)
and `tick` are total: the `Checked` variants — which fail exactly where
the Rust code would panic (out-of-bounds access, modulo by zero,
`u32` underflow) — succeed and return the unchecked values.  This holds
in particular on degenerate 1×1 and 1×N grids, where a cell is counted
as its own neighbor via wraparound. -/
theorem claim_C8_totality :
    ∀ u : Universe, u.Invariant → 1 ≤ u.width → 1 ≤ u.height →
      ((∀ row col : Nat, row < u.height → col < u.width →
        u.live_neighbor_countChecked row col
          = some (u.live_neighbor_count row col))
      ∧ u.tickChecked = some u.tick) :=
  fun u hInv hw hh =>
    ⟨fun row col _ _ => live_neighbor_countChecked_eq u hInv hh hw row col,
     tickChecked_eq u hInv⟩

/-- Witness for **C8** on the degenerate 1×1 grid with a live cell. -/
theorem claim_C8_totality_witness :
    oneByOneAlive.Invariant ∧ 1 ≤ oneByOneAlive.width
    ∧ 1 ≤ oneByOneAlive.height
    ∧ (0 : Nat) < oneByOneAlive.height ∧ (0 : Nat) < oneByOneAlive.width
    ∧ oneByOneAlive.live_neighbor_countChecked 0 0
        = some (oneByOneAlive.live_neighbor_count 0 0)
    ∧ oneByOneAlive.tickChecked = some oneByOneAlive.tick :=
  ⟨by decide, by decide, by decide, by decide, by decide,
   (claim_C8_totality oneByOneAlive (by decide) (by decide) (by decide)).1
     0 0 (by decide) (by decide),
   (claim_C8_totality oneByOneAlive (by decide) (by decide) (by decide)).2⟩

/-- **C9**: `tick` never changes `width` or `height`; only `cells` is
replaced, and the replacement list has the same length.  The replacement
is wholesale by construction: in this embedding `tick` is a pure function
whose new cell list is computed in full from the pre-tick state before
the record is rebuilt, so no partially updated grid is ever a value of
the function. -/
theorem claim_C9_frame :
    ∀ u : Universe, (u.tick).width = u.width ∧ (u.tick).height = u.height
      ∧ (u.tick).cells.length = u.cells.length :=
  fun u => ⟨tick_width u, tick_height u, tick_cells_length u⟩

/-- **C10**: on every 1×1 universe, `live_neighbor_count 0 0` is `5`
times the value of the sole cell — the offset lists `[height-1, 0, 1]`
both degenerate to `[0, 0, 1]`, the skip test removes all four `(0, 0)`
offset pairs, and each of the remaining 5 iterations wraps back to the
cell itself. -/
theorem claim_C10_one_by_one :
    ∀ u : Universe, u.width = 1 → u.height = 1 → u.Invariant →
      u.live_neighbor_count 0 0 = 5 * (u.cells.getD 0 Cell.Dead).toNat :=
  fun u hw hh hInv => lnc_one_one u hw hh hInv

/-- Witness for **C10** at the live 1×1 grid: the count is 5, not 8. -/
theorem claim_C10_one_by_one_witness :
    oneByOneAlive.width = 1 ∧ oneByOneAlive.height = 1
    ∧ oneByOneAlive.Invariant
    ∧ oneByOneAlive.live_neighbor_count 0 0
        = 5 * (oneByOneAlive.cells.getD 0 Cell.Dead).toNat :=
  ⟨rfl, rfl, by decide,
   claim_C10_one_by_one oneByOneAlive rfl rfl (by decide)⟩
